import Mathlib

/-!
Verification of the file-analysis orchestration pipeline of the
code_analyzer_app repository.

The Python source is shallowly embedded: pure helpers become Lean
functions over lists of bytes / characters, the file system and the LLM
backend become explicit oracles, and machine behaviour (hashing, text
decoding, wrapping) is translated operation by operation from the code
in src/code_analyzer_app.  All definitions are executable, so every
statement can be checked on concrete inputs.
-/

set_option maxRecDepth 8192
set_option maxHeartbeats 2000000

namespace CodeAnalyzer

/-! ## SHA-256 over byte lists

Embedding of hashlib.sha256 as used by core/utils.py
(calculate_file_hash): the digest of the file's bytes, rendered as a
64-character lowercase hex string by hexdigest(). -/

/-- Reduce a natural number to a 32-bit word. -/
def w32 (n : Nat) : Nat := n % 4294967296

/-- Right rotation of a 32-bit word by n bits (0 < n < 32). -/
def rotr32 (x n : Nat) : Nat := x / 2 ^ n + x % 2 ^ n * 2 ^ (32 - n)

/-- Bitwise complement of a 32-bit word. -/
def bnot32 (x : Nat) : Nat := 4294967295 - w32 x

/-- SHA-256 Ch function. -/
def shaCh (x y z : Nat) : Nat := (x &&& y) ^^^ (bnot32 x &&& z)

/-- SHA-256 Maj function. -/
def shaMaj (x y z : Nat) : Nat := (x &&& y) ^^^ (x &&& z) ^^^ (y &&& z)

/-- SHA-256 big Sigma0. -/
def bsig0 (x : Nat) : Nat := rotr32 x 2 ^^^ rotr32 x 13 ^^^ rotr32 x 22

/-- SHA-256 big Sigma1. -/
def bsig1 (x : Nat) : Nat := rotr32 x 6 ^^^ rotr32 x 11 ^^^ rotr32 x 25

/-- SHA-256 small sigma0. -/
def ssig0 (x : Nat) : Nat := rotr32 x 7 ^^^ rotr32 x 18 ^^^ x / 2 ^ 3

/-- SHA-256 small sigma1. -/
def ssig1 (x : Nat) : Nat := rotr32 x 17 ^^^ rotr32 x 19 ^^^ x / 2 ^ 10

/-- The 64 SHA-256 round constants (FIPS 180-4, written in decimal). -/
def shaK : List Nat :=
  [1116352408, 1899447441, 3049323471, 3921009573, 961987163, 1508970993,
   2453635748, 2870763221, 3624381080, 310598401, 607225278, 1426881987,
   1925078388, 2162078206, 2614888103, 3248222580, 3835390401, 4022224774,
   264347078, 604807628, 770255983, 1249150122, 1555081692, 1996064986,
   2554220882, 2821834349, 2952996808, 3210313671, 3336571891, 3584528711,
   113926993, 338241895, 666307205, 773529912, 1294757372, 1396182291,
   1695183700, 1986661051, 2177026350, 2456956037, 2730485921, 2820302411,
   3259730800, 3345764771, 3516065817, 3600352804, 4094571909, 275423344,
   430227734, 506948616, 659060556, 883997877, 958139571, 1322822218,
   1537002063, 1747873779, 1955562222, 2024104815, 2227730452, 2361852424,
   2428436474, 2756734187, 3204031479, 3329325298]

/-- Working state / chaining value of the compression function. -/
structure Hash8 where
  a : Nat
  b : Nat
  c : Nat
  d : Nat
  e : Nat
  f : Nat
  g : Nat
  h : Nat
  deriving Repr, DecidableEq

/-- Initial SHA-256 chaining value (FIPS 180-4, written in decimal). -/
def shaH0 : Hash8 :=
  ⟨1779033703, 3144134277, 1013904242, 2773480762,
   1359893119, 2600822924, 528734635, 1541459225⟩

/-- Extend the 16 block words with i further schedule words. -/
def msgSchedule (ws : List Nat) : Nat → List Nat
  | 0 => ws
  | n + 1 =>
    let prev := msgSchedule ws n
    let len := prev.length
    prev ++ [w32 (ssig1 (prev.getD (len - 2) 0) + prev.getD (len - 7) 0 +
                  ssig0 (prev.getD (len - 15) 0) + prev.getD (len - 16) 0)]

/-- One SHA-256 compression round for constant k and schedule word w. -/
def shaRound (s : Hash8) (kw : Nat × Nat) : Hash8 :=
  let t1 := w32 (s.h + bsig1 s.e + shaCh s.e s.f s.g + kw.1 + kw.2)
  let t2 := w32 (bsig0 s.a + shaMaj s.a s.b s.c)
  ⟨w32 (t1 + t2), s.a, s.b, s.c, w32 (s.d + t1), s.e, s.f, s.g⟩

/-- Group bytes four at a time into big-endian 32-bit words. -/
def bytesToWords : List Nat → List Nat
  | b0 :: b1 :: b2 :: b3 :: rest =>
      ((b0 % 256) * 16777216 + (b1 % 256) * 65536 + (b2 % 256) * 256 + b3 % 256) :: bytesToWords rest
  | _ => []

/-- Compress one 64-byte block into the chaining value. -/
def compressBlock (H : Hash8) (block : List Nat) : Hash8 :=
  let ws := msgSchedule (bytesToWords block) 48
  let s := (shaK.zip ws).foldl shaRound H
  ⟨w32 (H.a + s.a), w32 (H.b + s.b), w32 (H.c + s.c), w32 (H.d + s.d),
   w32 (H.e + s.e), w32 (H.f + s.f), w32 (H.g + s.g), w32 (H.h + s.h)⟩

/-- Split the padded message into 64-byte blocks (fuel ≥ length suffices). -/
def toBlocks : Nat → List Nat → List (List Nat)
  | 0, _ => []
  | _, [] => []
  | fuel + 1, bs => bs.take 64 :: toBlocks fuel (bs.drop 64)

/-- Big-endian 8-byte encoding of a natural number. -/
def lenBytes64 (n : Nat) : List Nat :=
  [n / 2 ^ 56 % 256, n / 2 ^ 48 % 256, n / 2 ^ 40 % 256, n / 2 ^ 32 % 256,
   n / 2 ^ 24 % 256, n / 2 ^ 16 % 256, n / 2 ^ 8 % 256, n % 256]

/-- SHA-256 padding: 0x80, zeros to 56 mod 64, then the bit length. -/
def padMessage (msg : List Nat) : List Nat :=
  let L := msg.length
  msg ++ 128 :: List.replicate ((119 - L % 64) % 64) 0 ++ lenBytes64 (8 * L)

/-- Full SHA-256 of a byte list, as the 8-word chaining value. -/
def sha256 (msg : List Nat) : Hash8 :=
  let padded := padMessage msg
  (toBlocks padded.length padded).foldl compressBlock shaH0

/-- The four big-endian bytes of a 32-bit word, as hexdigest emits them. -/
def wordBytes (w : Nat) : List Nat :=
  [w / 2 ^ 24 % 256, w / 2 ^ 16 % 256, w / 2 ^ 8 % 256, w % 256]

/-- The 32 digest bytes of a chaining value. -/
def digestBytes (H : Hash8) : List Nat :=
  wordBytes H.a ++ wordBytes H.b ++ wordBytes H.c ++ wordBytes H.d ++
  wordBytes H.e ++ wordBytes H.f ++ wordBytes H.g ++ wordBytes H.h

/-- Lowercase hex character for a nibble. -/
def hexChar (n : Nat) : Char :=
  if n < 10 then Char.ofNat (48 + n) else Char.ofNat (87 + n)

/-- Lowercase hex rendering of a byte list, two characters per byte. -/
def hexOfBytes : List Nat → List Char
  | [] => []
  | b :: bs => hexChar (b / 16 % 16) :: hexChar (b % 16) :: hexOfBytes bs

/-- hashlib.sha256(bytes).hexdigest(): the digest as 64 lowercase hex chars. -/
def sha256Hex (msg : List Nat) : String :=
  String.mk (hexOfBytes (digestBytes (sha256 msg)))

theorem hexOfBytes_length (bs : List Nat) : (hexOfBytes bs).length = 2 * bs.length := by
  induction bs with
  | nil => rfl
  | cons b bs ih => simp [hexOfBytes, ih]; ring

theorem digestBytes_length (H : Hash8) : (digestBytes H).length = 32 := rfl

/-- Every hexdigest has exactly 64 characters. -/
theorem sha256Hex_length (msg : List Nat) : (sha256Hex msg).length = 64 := by
  show (hexOfBytes (digestBytes (sha256 msg))).length = 64
  rw [hexOfBytes_length, digestBytes_length]

/-! ## Text decoding and read_file_content

Embedding of core/utils.py read_file_content: the file's raw bytes are
decoded by trying the encodings utf-8, latin-1, cp1252 in order;
open(..., 'r') in text mode also applies universal-newline translation
to the decoded text.  Decoders follow Python's codecs: strict UTF-8
(RFC 3629 ranges, surrogates rejected), latin-1 (every byte maps to its
own code point), cp1252 (the Windows-1252 table, with five unassigned
bytes). -/

/-- A continuation byte 0x80..0xBF. -/
def isCont (b : Nat) : Bool := 128 ≤ b && b ≤ 191

/-- Strict UTF-8 decoding of a byte list, as Python's utf-8 codec does. -/
def decodeUtf8 : List Nat → Option (List Char)
  | [] => some []
  | b :: bs =>
    if b ≤ 0x7F then
      (decodeUtf8 bs).map (Char.ofNat b :: ·)
    else if 0xC2 ≤ b ∧ b ≤ 0xDF then
      match bs with
      | b1 :: rest =>
        if isCont b1 then
          (decodeUtf8 rest).map (Char.ofNat ((b - 0xC0) * 64 + (b1 - 0x80)) :: ·)
        else none
      | [] => none
    else if 0xE0 ≤ b ∧ b ≤ 0xEF then
      match bs with
      | b1 :: b2 :: rest =>
        let lo1 := if b = 0xE0 then 0xA0 else 0x80
        let hi1 := if b = 0xED then 0x9F else 0xBF
        if lo1 ≤ b1 ∧ b1 ≤ hi1 ∧ isCont b2 then
          (decodeUtf8 rest).map
            (Char.ofNat ((b - 0xE0) * 4096 + (b1 - 0x80) * 64 + (b2 - 0x80)) :: ·)
        else none
      | _ => none
    else if 0xF0 ≤ b ∧ b ≤ 0xF4 then
      match bs with
      | b1 :: b2 :: b3 :: rest =>
        let lo1 := if b = 0xF0 then 0x90 else 0x80
        let hi1 := if b = 0xF4 then 0x8F else 0xBF
        if lo1 ≤ b1 ∧ b1 ≤ hi1 ∧ isCont b2 ∧ isCont b3 then
          (decodeUtf8 rest).map
            (Char.ofNat ((b - 0xF0) * 262144 + (b1 - 0x80) * 4096 +
                         (b2 - 0x80) * 64 + (b3 - 0x80)) :: ·)
        else none
      | _ => none
    else none

/-- Latin-1 decoding: every byte decodes to the code point of its value,
so this codec never fails on any byte sequence. -/
def decodeLatin1 (bs : List Nat) : List Char := bs.map Char.ofNat

/-- The cp1252 mapping of the bytes 0x80..0x9F; the five holes are the
unassigned bytes of Windows-1252, on which the codec errors out. -/
def cp1252High (b : Nat) : Option Nat :=
  match b with
  | 0x80 => some 0x20AC | 0x82 => some 0x201A | 0x83 => some 0x0192
  | 0x84 => some 0x201E | 0x85 => some 0x2026 | 0x86 => some 0x2020
  | 0x87 => some 0x2021 | 0x88 => some 0x02C6 | 0x89 => some 0x2030
  | 0x8A => some 0x0160 | 0x8B => some 0x2039 | 0x8C => some 0x0152
  | 0x8E => some 0x017D | 0x91 => some 0x2018 | 0x92 => some 0x2019
  | 0x93 => some 0x201C | 0x94 => some 0x201D | 0x95 => some 0x2022
  | 0x96 => some 0x2013 | 0x97 => some 0x2014 | 0x98 => some 0x02DC
  | 0x99 => some 0x2122 | 0x9A => some 0x0161 | 0x9B => some 0x203A
  | 0x9C => some 0x0153 | 0x9E => some 0x017E | 0x9F => some 0x0178
  | _ => none

/-- cp1252 decoding; fails on the unassigned bytes 0x81 0x8D 0x8F 0x90 0x9D. -/
def decodeCp1252 : List Nat → Option (List Char)
  | [] => some []
  | b :: bs =>
    if 0x80 ≤ b ∧ b ≤ 0x9F then
      match cp1252High b with
      | some cp => (decodeCp1252 bs).map (Char.ofNat cp :: ·)
      | none => none
    else (decodeCp1252 bs).map (Char.ofNat b :: ·)

/-- Universal-newline translation applied by text-mode open(): CRLF and
lone CR both become LF. -/
def translateNewlines : List Char → List Char
  | [] => []
  | '\r' :: '\n' :: rest => '\n' :: translateNewlines rest
  | '\r' :: rest => '\n' :: translateNewlines rest
  | c :: rest => c :: translateNewlines rest

/-- The encodings read_file_content tries, in source order. -/
inductive Encoding | utf8 | latin1 | cp1252
  deriving Repr, DecidableEq

/-- Decode bytes with one named codec. -/
def decodeWith : Encoding → List Nat → Option (List Char)
  | .utf8, bs => decodeUtf8 bs
  | .latin1, bs => some (decodeLatin1 bs)
  | .cp1252, bs => decodeCp1252 bs

/-- Errors surfaced by the embedded I/O helpers. -/
inductive PyErr
  | osError
  | unicodeDecodeError
  | valueError
  deriving Repr, DecidableEq

/-- What opening a file for reading can yield. -/
inductive ReadResult
  | absent
  | ioError
  | bytes (bs : List Nat)

/-- The loop of read_file_content: try each encoding; a decode failure
moves on to the next encoding, and exhausting the list raises ValueError. -/
def tryEncodings : List Encoding → List Nat → Except PyErr String
  | [], _ => .error .valueError
  | e :: rest, bs =>
    match decodeWith e bs with
    | some cs => .ok (String.mk (translateNewlines cs))
    | none => tryEncodings rest bs

/-- core/utils.py read_file_content: open errors re-raise; otherwise the
bytes are decoded with utf-8, latin-1, cp1252 in that order. -/
def read_file_content (r : ReadResult) : Except PyErr String :=
  match r with
  | .absent => .error .osError
  | .ioError => .error .osError
  | .bytes bs => tryEncodings [.utf8, .latin1, .cp1252] bs

/-! ## Python splitlines(keepends=True)

Embedding of str.splitlines with keepends, as used by
LLMClient._chunk_code.  Line boundaries are the characters Python
recognises, with CRLF kept together as one boundary. -/

/-- The line-boundary characters of str.splitlines. -/
def isLineBreak (c : Char) : Bool :=
  c = '\n' || c = '\r' || c = '\x0b' || c = '\x0c' ||
  c = '\x1c' || c = '\x1d' || c = '\x1e' || c = '\x85' ||
  c = '\u2028' || c = '\u2029'

/-- str.splitlines(keepends=True) on a character list. -/
def splitlinesKE : List Char → List (List Char)
  | [] => []
  | '\r' :: '\n' :: rest => ['\r', '\n'] :: splitlinesKE rest
  | '\r' :: rest => ['\r'] :: splitlinesKE rest
  | c :: rest =>
    if isLineBreak c then
      [c] :: splitlinesKE rest
    else
      match splitlinesKE rest with
      | [] => [[c]]
      | l :: ls => (c :: l) :: ls
termination_by structural l => l

/-- Concatenating the kept-ends lines reproduces the original text. -/
theorem splitlinesKE_join (l : List Char) : (splitlinesKE l).flatten = l := by
  induction l using splitlinesKE.induct with
  | case1 => rfl
  | case2 rest ih => rw [splitlinesKE.eq_2]; simpa using ih
  | case3 rest hne ih => rw [splitlinesKE.eq_3 rest hne]; simpa using ih
  | case4 c rest h1 h2 hbr ih =>
    rw [splitlinesKE.eq_4 c rest h1 h2, if_pos hbr]
    simpa using ih
  | case5 c rest h1 h2 hbr hnil ih =>
    rw [splitlinesKE.eq_4 c rest h1 h2, if_neg hbr, hnil]
    have hrest : rest = [] := by rw [← ih, hnil]; rfl
    simp [hrest]
  | case6 c rest h1 h2 hbr ll ls heq ih =>
    rw [splitlinesKE.eq_4 c rest h1 h2, if_neg hbr, heq]
    rw [heq] at ih
    simpa using ih

/-! ## textwrap.wrap

Embedding of the CPython textwrap machinery as LLMClient._chunk_code
invokes it: wrap(chunk, width=chunk_size, break_long_words=False,
replace_whitespace=False), so expand_tabs=True, drop_whitespace=True,
no indents, max_lines=None.  The word splitter models wordsep_re as
runs of whitespace and non-whitespace with the single-hyphen rule
(break after a hyphen that sits between letters); the em-dash clause
for runs of two or more hyphens is not modelled, and the letter class
is ASCII — no input evaluated in this development contains a hyphen or
a non-ASCII word character. -/

/-- Whitespace as the regex class matches it on Python strings. -/
def pySpace (c : Char) : Bool :=
  c = ' ' || c = '\t' || c = '\n' || c = '\r' || c = '\x0b' || c = '\x0c' ||
  c = '\x1c' || c = '\x1d' || c = '\x1e' || c = '\x1f' || c = '\x85' ||
  c = '\xa0' || c = '\u1680' ||
  (0x2000 ≤ c.toNat && c.toNat ≤ 0x200a) ||
  c = '\u2028' || c = '\u2029' || c = '\u202f' || c = '\u205f' || c = '\u3000'

/-- str.expandtabs with the default tab size 8; columns reset at CR/LF. -/
def expandtabsGo (col : Nat) : List Char → List Char
  | [] => []
  | c :: rest =>
    if c = '\t' then
      let n := 8 - col % 8
      List.replicate n ' ' ++ expandtabsGo (col + n) rest
    else if c = '\n' || c = '\r' then c :: expandtabsGo 0 rest
    else c :: expandtabsGo (col + 1) rest

/-- TextWrapper._munge_whitespace with replace_whitespace=False: only
tab expansion applies. -/
def mungeWhitespace (cs : List Char) : List Char := expandtabsGo 0 cs

/-- A word character that is not a digit, ASCII approximation. -/
def isWordLetter (c : Char) : Bool := c.isAlpha || c = '_'

/-- Take the maximal run of whitespace from the front. -/
def takeSpacesGo (acc : List Char) : List Char → List Char × List Char
  | [] => (acc.reverse, [])
  | c :: rest =>
    if pySpace c then takeSpacesGo (c :: acc) rest else (acc.reverse, c :: rest)

/-- Take one word chunk from the front: non-whitespace characters, but a
hyphen between letters ends the chunk (hyphenated-word rule). -/
def takeWordGo (prev : Option Char) (acc : List Char) : List Char → List Char × List Char
  | [] => (acc.reverse, [])
  | c :: rest =>
    if pySpace c then (acc.reverse, c :: rest)
    else if c = '-' then
      match prev, rest with
      | some p, n :: _ =>
        if isWordLetter p && isWordLetter n then ((c :: acc).reverse, rest)
        else takeWordGo (some c) (c :: acc) rest
      | _, _ => takeWordGo (some c) (c :: acc) rest
    else takeWordGo (some c) (c :: acc) rest

/-- TextWrapper._split: the text as alternating whitespace and word
chunks (fuel ≥ length suffices, as every chunk is nonempty). -/
def wordsepSplitGo : Nat → List Char → List (List Char)
  | 0, _ => []
  | _, [] => []
  | fuel + 1, c :: rest =>
    if pySpace c then
      let pr := takeSpacesGo [] (c :: rest)
      pr.1 :: wordsepSplitGo fuel pr.2
    else
      let pr := takeWordGo none [] (c :: rest)
      pr.1 :: wordsepSplitGo fuel pr.2

def wordsepSplit (cs : List Char) : List (List Char) :=
  wordsepSplitGo cs.length cs

/-- A chunk whose strip() is empty, i.e. all whitespace. -/
def isWsChunk (ch : List Char) : Bool := ch.all pySpace

/-- Greedy packing of chunks onto the current line while they fit. -/
def greedyTake (width : Nat) : Nat → List (List Char) → List (List Char) × List (List Char)
  | _, [] => ([], [])
  | curLen, ch :: rest =>
    if curLen + ch.length ≤ width then
      let pr := greedyTake width (curLen + ch.length) rest
      (ch :: pr.1, pr.2)
    else ([], ch :: rest)

/-- TextWrapper._wrap_chunks with drop_whitespace=True,
break_long_words=False, empty indents: lines are accumulated in
reverse; every iteration consumes at least one chunk, so fuel ≥
number of chunks suffices. -/
def wrapChunksGo (width : Nat) : Nat → List (List Char) → List (List Char) → List (List Char)
  | 0, lines, _ => lines.reverse
  | _, lines, [] => lines.reverse
  | fuel + 1, lines, first :: rest0 =>
    let chunks1 := if !lines.isEmpty && isWsChunk first then rest0 else first :: rest0
    let pr := greedyTake width 0 chunks1
    let pr2 :=
      match pr.2 with
      | ch :: rs =>
        if decide (ch.length > width) && pr.1.isEmpty then (pr.1 ++ [ch], rs)
        else (pr.1, ch :: rs)
      | [] => (pr.1, [])
    let curLine :=
      match pr2.1.getLast? with
      | some lastc => if isWsChunk lastc then pr2.1.dropLast else pr2.1
      | none => pr2.1
    let lines2 := if curLine.isEmpty then lines else curLine.flatten :: lines
    wrapChunksGo width fuel lines2 pr2.2

/-- textwrap.wrap(text, width, break_long_words=False,
replace_whitespace=False). -/
def textwrapWrap (text : List Char) (width : Nat) : List (List Char) :=
  let chunks := wordsepSplit (mungeWhitespace text)
  wrapChunksGo width (chunks.length + 1) [] chunks

/-! ## LLMClient._chunk_code

The chunker of core/llm_client.py: content that fits is returned whole;
otherwise lines (keepends) are packed greedily into chunks of at most
chunk_size characters, and any chunk still larger than chunk_size —
only possible when a single line exceeds it — is re-wrapped with
textwrap. -/

/-- The line-packing loop of _chunk_code: chunks carries the flushed
chunks, cur the lines of the chunk being built, curLen its length. -/
def chunkLoop (chunkSize : Nat) :
    List (List Char) → List (List Char) → List (List Char) → Nat →
    List (List Char) × List (List Char) × Nat
  | [], chunks, cur, curLen => (chunks, cur, curLen)
  | line :: rest, chunks, cur, curLen =>
    if curLen + line.length ≤ chunkSize then
      chunkLoop chunkSize rest chunks (cur ++ [line]) (curLen + line.length)
    else
      chunkLoop chunkSize rest (chunks ++ [cur.flatten]) [line] line.length

/-- LLMClient._chunk_code(code_content, chunk_size). -/
def chunkCode (codeContent : String) (chunkSize : Nat) : List String :=
  if codeContent.length ≤ chunkSize then [codeContent]
  else
    let lines := splitlinesKE codeContent.data
    let r := chunkLoop chunkSize lines [] [] 0
    let chunks2 := if r.2.1.isEmpty then r.1 else r.1 ++ [r.2.1.flatten]
    (chunks2.flatMap fun ch =>
      if ch.length > chunkSize then textwrapWrap ch chunkSize else [ch]).map String.mk

/-- Concatenation of a list of strings, used to state reassembly. -/
def concatStrings (l : List String) : String := l.foldr (· ++ ·) ""

theorem concatStrings_map_mk (ls : List (List Char)) :
    concatStrings (ls.map String.mk) = String.mk ls.flatten := by
  induction ls with
  | nil => rfl
  | cons a rest ih =>
    show String.mk a ++ concatStrings (rest.map String.mk) = _
    rw [ih]
    rfl

/-- Invariant of the line-packing loop: the flushed chunks followed by
the pending chunk spell out everything consumed, and when every line
fits in chunkSize so does every chunk. -/
theorem chunkLoop_spec (S : Nat) (lines : List (List Char)) :
    ∀ chunks cur curLen,
      (∀ l ∈ lines, l.length ≤ S) →
      (∀ c ∈ chunks, c.length ≤ S) →
      cur.flatten.length ≤ S →
      curLen = cur.flatten.length →
      (chunkLoop S lines chunks cur curLen).1.flatten ++
        (chunkLoop S lines chunks cur curLen).2.1.flatten =
          chunks.flatten ++ cur.flatten ++ lines.flatten ∧
      (∀ c ∈ (chunkLoop S lines chunks cur curLen).1, c.length ≤ S) ∧
      (chunkLoop S lines chunks cur curLen).2.1.flatten.length ≤ S := by
  induction lines with
  | nil =>
    intro chunks cur curLen _ hchunks hcur _
    refine ⟨by simp [chunkLoop], hchunks, hcur⟩
  | cons line rest ih =>
    intro chunks cur curLen hlines hchunks hcur hlen
    have hline : line.length ≤ S := hlines line (by simp)
    have hrest : ∀ l ∈ rest, l.length ≤ S := fun l hl => hlines l (by simp [hl])
    by_cases hfit : curLen + line.length ≤ S
    · rw [chunkLoop, if_pos hfit]
      have h1 := ih chunks (cur ++ [line]) (curLen + line.length) hrest hchunks
        (by simpa [hlen] using hfit)
        (by simp [hlen])
      refine ⟨?_, h1.2.1, h1.2.2⟩
      rw [h1.1]
      simp
    · rw [chunkLoop, if_neg hfit]
      have hchunks2 : ∀ c ∈ chunks ++ [cur.flatten], c.length ≤ S := by
        intro c hc
        rcases List.mem_append.mp hc with h | h
        · exact hchunks c h
        · simpa using (List.mem_singleton.mp h) ▸ hcur
      have h1 := ih (chunks ++ [cur.flatten]) [line] line.length hrest hchunks2
        (by simpa using hline) (by simp)
      refine ⟨?_, h1.2.1, h1.2.2⟩
      rw [h1.1]
      simp

theorem string_append_empty (s : String) : s ++ "" = s := by
  cases s with
  | mk d =>
    show String.mk (d ++ []) = String.mk d
    rw [List.append_nil]

theorem string_mk_data (s : String) : String.mk s.data = s := rfl

/-- When no chunk is oversized the textwrap fallback pass is the identity. -/
theorem flatMapKeep (S : Nat) (l : List (List Char)) (h : ∀ c ∈ l, ¬c.length > S) :
    (l.flatMap fun ch => if ch.length > S then textwrapWrap ch S else [ch]) = l := by
  induction l with
  | nil => rfl
  | cons a rest ih =>
    have ha := h a (by simp)
    rw [List.flatMap_cons, if_neg ha, ih fun c hc => h c (by simp [hc])]
    rfl

/-- C1 (amended): for every text T and chunk size S such that no single
line of T (split with keepends) exceeds S, the chunker's output
concatenates back to T exactly and every chunk has length at most S.
When a line does exceed S the textwrap fallback applies, which can drop
whitespace at break points and leave an unbroken long word longer than
S (see the counterexample). -/
theorem chunkCode_lines_fit_reassembly (T : String) (S : Nat)
    (h : ∀ l ∈ splitlinesKE T.data, l.length ≤ S) :
    concatStrings (chunkCode T S) = T ∧ ∀ c ∈ chunkCode T S, c.length ≤ S := by
  by_cases hfit : T.length ≤ S
  · have he : chunkCode T S = [T] := by rw [chunkCode, if_pos hfit]
    rw [he]
    exact ⟨string_append_empty T, by intro c hc; simpa using (List.mem_singleton.mp hc) ▸ hfit⟩
  · have he : chunkCode T S =
        (let lines := splitlinesKE T.data
         let r := chunkLoop S lines [] [] 0
         let chunks2 := if r.2.1.isEmpty then r.1 else r.1 ++ [r.2.1.flatten]
         (chunks2.flatMap fun ch =>
           if ch.length > S then textwrapWrap ch S else [ch]).map String.mk) := by
      rw [chunkCode, if_neg hfit]
    have hspec := chunkLoop_spec S (splitlinesKE T.data) [] [] 0 h
      (by intro c hc; simp at hc) (by simp) (by simp)
    set r := chunkLoop S (splitlinesKE T.data) [] [] 0 with hr
    obtain ⟨hcat, hbound, hcur⟩ := hspec
    simp only [List.flatten_nil, List.nil_append] at hcat
    set chunks2 := if r.2.1.isEmpty then r.1 else r.1 ++ [r.2.1.flatten] with hc2
    have hflat : chunks2.flatten = T.data := by
      rw [hc2]
      by_cases hemp : r.2.1.isEmpty
      · have : r.2.1.flatten = [] := by
          rw [List.isEmpty_iff.mp hemp]
          rfl
        rw [if_pos hemp]
        rw [this, List.append_nil] at hcat
        rw [hcat, splitlinesKE_join]
      · rw [if_neg hemp]
        rw [List.flatten_append]
        simpa [hcat] using splitlinesKE_join T.data
    have hbound2 : ∀ c ∈ chunks2, c.length ≤ S := by
      intro c hc
      rw [hc2] at hc
      by_cases hemp : r.2.1.isEmpty
      · rw [if_pos hemp] at hc
        exact hbound c hc
      · rw [if_neg hemp] at hc
        rcases List.mem_append.mp hc with h1 | h1
        · exact hbound c h1
        · rw [List.mem_singleton.mp h1]
          exact hcur
    have hid := flatMapKeep S chunks2 fun c hc => by simpa using hbound2 c hc
    rw [he]
    simp only []
    rw [hid, concatStrings_map_mk, hflat, string_mk_data]
    refine ⟨rfl, ?_⟩
    intro c hc
    obtain ⟨ch, hch, hceq⟩ := List.mem_map.mp hc
    rw [← hceq]
    exact hbound2 ch hch

/-- Witness: a two-line text whose lines fit in S = 3 is reassembled
exactly with all chunks within bound. -/
theorem chunkCode_lines_fit_reassembly_witness :
    (∀ l ∈ splitlinesKE ("ab\ncd".data), l.length ≤ 3) ∧
    (concatStrings (chunkCode "ab\ncd" 3) = "ab\ncd" ∧
     ∀ c ∈ chunkCode "ab\ncd" 3, c.length ≤ 3) :=
  ⟨by decide, chunkCode_lines_fit_reassembly "ab\ncd" 3 (by decide)⟩

/-- C1 counterexample: at T = "aaaa bbbb", S = 6 the single 9-character
line triggers textwrap, the space is dropped, and concatenation does not
reproduce T; at T = "aaaaaaa", S = 6 the oversized word is not broken at
the S boundary, so a chunk longer than S is emitted. -/
theorem chunkCode_counterexample :
    chunkCode "aaaa bbbb" 6 = ["", "aaaa", "bbbb"] ∧
    concatStrings (chunkCode "aaaa bbbb" 6) ≠ "aaaa bbbb" ∧
    ((chunkCode "aaaaaaa" 6).any fun c => decide (6 < c.length)) = true := by
  refine ⟨by decide, by decide, by decide⟩

/-! ## LLMClient._call_llm — the retry loop

Embedding of the retry loop of core/llm_client.py: up to max_retries
attempts; a response with parts returns its text; a response blocked by
prompt feedback, an empty response, or a BlockedPromptException each
return None immediately; any other exception sleeps 2^attempt seconds
and moves to the next attempt.  The backend is an oracle giving the
outcome of each attempt. -/

/-- Outcome of one generate_content call, as _call_llm distinguishes them. -/
inductive LLMOutcome
  | ok (s : String)
  | blockedFeedback
  | noContent
  | blockedPrompt
  | exn
  deriving Repr, DecidableEq

/-- Result of _call_llm together with its observable retry behaviour. -/
structure CallResult where
  value : Option String
  attempts : Nat
  sleeps : List Nat
  deriving Repr, DecidableEq

/-- The loop body: i is the index of the next attempt, r the remaining
attempts, sleepsRev the sleeps so far in reverse. -/
def callLLMGo (oracle : Nat → LLMOutcome) : Nat → Nat → List Nat → CallResult
  | i, 0, sleepsRev => ⟨none, i, sleepsRev.reverse⟩
  | i, r + 1, sleepsRev =>
    match oracle i with
    | .ok s => ⟨some s, i + 1, sleepsRev.reverse⟩
    | .blockedFeedback => ⟨none, i + 1, sleepsRev.reverse⟩
    | .noContent => ⟨none, i + 1, sleepsRev.reverse⟩
    | .blockedPrompt => ⟨none, i + 1, sleepsRev.reverse⟩
    | .exn => callLLMGo oracle (i + 1) r (2 ^ i :: sleepsRev)

/-- LLMClient._call_llm with the given per-attempt outcomes. -/
def callLLM (oracle : Nat → LLMOutcome) (maxRetries : Nat) : CallResult :=
  callLLMGo oracle 0 maxRetries []

theorem callLLMGo_attempts (o : Nat → LLMOutcome) :
    ∀ (r i : Nat) (srev : List Nat), (callLLMGo o i r srev).attempts ≤ i + r := by
  intro r
  induction r with
  | zero => intro i srev; simp [callLLMGo]
  | succ r ih =>
    intro i srev
    rw [callLLMGo]
    cases o i with
    | ok s => simp
    | blockedFeedback => simp
    | noContent => simp
    | blockedPrompt => simp
    | exn =>
      have h2 := ih (i + 1) (2 ^ i :: srev)
      show (callLLMGo o (i + 1) r (2 ^ i :: srev)).attempts ≤ i + (r + 1)
      omega

theorem callLLMGo_sleeps (o : Nat → LLMOutcome) :
    ∀ (r i : Nat) (srev : List Nat),
      srev = ((List.range i).map fun j => 2 ^ j).reverse →
      (callLLMGo o i r srev).sleeps =
        (List.range (callLLMGo o i r srev).sleeps.length).map fun j => 2 ^ j := by
  intro r
  induction r with
  | zero =>
    intro i srev hs
    subst hs
    simp [callLLMGo]
  | succ r ih =>
    intro i srev hs
    rw [callLLMGo]
    cases o i with
    | ok s => subst hs; simp
    | blockedFeedback => subst hs; simp
    | noContent => subst hs; simp
    | blockedPrompt => subst hs; simp
    | exn =>
      refine ih (i + 1) (2 ^ i :: srev) ?_
      subst hs
      rw [List.range_succ]
      simp

/-- C4: the retry loop makes at most max_retries attempts; its sleeps
follow the exponential schedule 2^0, 2^1, ... in order; an operation
failing twice then succeeding under max_retries = 3 returns the success
after exactly 3 attempts with two increasing sleeps; and a content-policy
block is attempted exactly once with no sleeps. -/
theorem callLLM_retry_policy :
    (∀ (o : Nat → LLMOutcome) (N : Nat), (callLLM o N).attempts ≤ N) ∧
    (∀ (o : Nat → LLMOutcome) (N : Nat),
      (callLLM o N).sleeps =
        (List.range (callLLM o N).sleeps.length).map fun j => 2 ^ j) ∧
    callLLM (fun i => if i < 2 then .exn else .ok "done") 3 =
      ⟨some "done", 3, [1, 2]⟩ ∧
    callLLM (fun _ => .blockedPrompt) 3 = ⟨none, 1, []⟩ := by
  refine ⟨fun o N => by simpa using callLLMGo_attempts o N 0 [],
          fun o N => callLLMGo_sleeps o N 0 [] (by simp),
          by decide, by decide⟩

/-! ## CodeAnalyzerProcessor._process_file — the multi-chunk path

Embedding of processor.py lines 84-109 with the surrounding exception
handler: each chunk is analyzed with up to 3 attempts; static-analysis
findings are passed only with the first chunk (i == 0); a chunk whose
attempts are exhausted re-raises, which the outer handler turns into a
failed file; with every chunk analyzed, a nonempty result list goes to
summarize_analyses (failed file if that raises), and an empty one gets
a placeholder result, so the file counts as successful.  LLM calls are
an oracle from (chunk index, attempt index) to an optional result. -/

/-- One analyze_code call as the processor's chunk loop issues it. -/
structure ChunkCallRec where
  chunk : String
  chunkIdx : Nat
  attempt : Nat
  findingsArg : String
  deriving Repr, DecidableEq

/-- The inner retry loop for one chunk: result of the first successful
attempt, along with the attempt indices actually issued. -/
def chunkAttempts {α : Type} (o : Nat → Nat → Option α) (i : Nat) :
    Nat → Nat → Option α × List Nat
  | 0, _ => (none, [])
  | r + 1, j =>
    match o i j with
    | some a => (some a, [j])
    | none =>
      let pr := chunkAttempts o i r (j + 1)
      (pr.1, j :: pr.2)

/-- The analyze calls one chunk contributes to the trace. -/
def chunkCalls (c : String) (i : Nat) (findings : String) (js : List Nat) :
    List ChunkCallRec :=
  js.map fun j => ChunkCallRec.mk c i j (if i = 0 then findings else "")

/-- The chunk loop: analyses are collected until a chunk exhausts its
3 attempts, which re-raises (the error result).  The trace records each
analyze_code call with the findings argument it received. -/
def processChunksGo {α : Type} (o : Nat → Nat → Option α) (findings : String) :
    Nat → List String → List α → List ChunkCallRec →
    Except Unit (List α) × List ChunkCallRec
  | _, [], acc, calls => (.ok acc.reverse, calls.reverse)
  | i, c :: rest, acc, calls =>
    match chunkAttempts o i 3 0 with
    | (some a, js) =>
      processChunksGo o findings (i + 1) rest (a :: acc)
        ((chunkCalls c i findings js).reverse ++ calls)
    | (none, js) =>
      (.error (), ((chunkCalls c i findings js).reverse ++ calls).reverse)

def processChunks {α : Type} (chunks : List String) (findings : String)
    (o : Nat → Nat → Option α) : Except Unit (List α) × List ChunkCallRec :=
  processChunksGo o findings 0 chunks [] []

/-- Terminal per-file status recorded by _process_file. -/
inductive FileStatus | success | failed
  deriving Repr, DecidableEq

/-- The multi-chunk path of _process_file: status, whether the synthesis
call was made, and the trace of analyze calls.  Report writing and the
cache update are outside this slice and modelled as succeeding. -/
def processFileMultiChunk {α β : Type} (chunks : List String) (findings : String)
    (o : Nat → Nat → Option α) (summ : List α → Option β) :
    FileStatus × Bool × List ChunkCallRec :=
  match processChunks chunks findings o with
  | (.error _, trace) => (.failed, false, trace)
  | (.ok analyses, trace) =>
    if analyses.isEmpty then
      (.success, false, trace)
    else
      match summ analyses with
      | some _ => (.success, true, trace)
      | none => (.failed, true, trace)

/-- All branches of the multi-chunk path report the same call trace. -/
theorem processFileMultiChunk_trace {α β : Type} (chunks : List String) (findings : String)
    (o : Nat → Nat → Option α) (summ : List α → Option β) :
    (processFileMultiChunk chunks findings o summ).2.2 = (processChunks chunks findings o).2 := by
  unfold processFileMultiChunk
  rcases h : processChunks chunks findings o with ⟨res, trace⟩
  rcases res with e | as
  · rfl
  · by_cases hemp : as = []
    · simp [hemp]
    · rcases hs : summ as with _ | b <;> simp [hemp, hs, List.isEmpty_iff]

/-- Success test for the embedded exception flow. -/
def isOkE {ε γ : Type} : Except ε γ → Bool
  | .ok _ => true
  | .error _ => false

theorem processChunksGo_ok_iff {α : Type} (o : Nat → Nat → Option α) (findings : String) :
    ∀ (cs : List String) (i : Nat) (acc : List α) (calls : List ChunkCallRec),
      isOkE (processChunksGo o findings i cs acc calls).1 = true ↔
        ∀ k < cs.length, (chunkAttempts o (i + k) 3 0).1.isSome = true := by
  intro cs
  induction cs with
  | nil =>
    intro i acc calls
    simp [processChunksGo, isOkE]
  | cons c rest ih =>
    intro i acc calls
    rw [processChunksGo]
    rcases hpr : chunkAttempts o i 3 0 with ⟨res, js⟩
    cases res with
    | some a =>
      rw [ih (i + 1) (a :: acc) ((chunkCalls c i findings js).reverse ++ calls)]
      constructor
      · intro hall k hk
        cases k with
        | zero => simp [hpr]
        | succ k =>
          have := hall k (by simpa using Nat.lt_of_succ_lt_succ hk)
          simpa [Nat.add_assoc, Nat.add_comm 1 k] using this
      · intro hall k hk
        have := hall (k + 1) (by simpa using Nat.succ_lt_succ hk)
        simpa [Nat.add_assoc, Nat.add_comm 1 k] using this
    | none =>
      simp only [isOkE]
      constructor
      · intro h; cases h
      · intro hall
        have := hall 0 (by simp)
        rw [Nat.add_zero, hpr] at this
        simp at this

theorem processChunksGo_findings {α : Type} (o : Nat → Nat → Option α) (findings : String) :
    ∀ (cs : List String) (i : Nat) (acc : List α) (calls : List ChunkCallRec),
      (∀ r ∈ calls, r.findingsArg = if r.chunkIdx = 0 then findings else "") →
      ∀ r ∈ (processChunksGo o findings i cs acc calls).2,
        r.findingsArg = if r.chunkIdx = 0 then findings else "" := by
  intro cs
  induction cs with
  | nil =>
    intro i acc calls hcalls r hr
    rw [processChunksGo] at hr
    exact hcalls r (List.mem_reverse.mp hr)
  | cons c rest ih =>
    intro i acc calls hcalls
    have hcalls2 : ∀ js : List Nat,
        ∀ r ∈ (chunkCalls c i findings js).reverse ++ calls,
          r.findingsArg = if r.chunkIdx = 0 then findings else "" := by
      intro js r hr
      rcases List.mem_append.mp hr with h | h
      · obtain ⟨j, _, hj⟩ := List.mem_map.mp (List.mem_reverse.mp h)
        rw [← hj]
      · exact hcalls r h
    intro r hr
    rw [processChunksGo] at hr
    rcases hpr : chunkAttempts o i 3 0 with ⟨res, js⟩
    rw [hpr] at hr
    cases res with
    | some a =>
      exact ih (i + 1) (a :: acc) _ (hcalls2 js) r hr
    | none =>
      exact hcalls2 js r (List.mem_reverse.mp hr)

/-- Oracle for the C2 counterexample: chunk 0 always succeeds, every
other chunk always fails. -/
def c2Oracle : Nat → Nat → Option Nat := fun i _ => if i = 0 then some 7 else none

/-- C2 counterexample: with two chunks where the first chunk's analyze
call succeeds and the second fails all three attempts, the file is
marked failed and no synthesis happens, although at least one chunk
succeeded — the claim says the file should be marked successful with
synthesis over the successful subset. -/
theorem processFile_partial_failure_counterexample :
    c2Oracle 0 0 = some 7 ∧
    (processFileMultiChunk ["chunk0", "chunk1"] "" c2Oracle
        (fun as : List Nat => some as.length)).1 = .failed ∧
    (processFileMultiChunk ["chunk0", "chunk1"] "" c2Oracle
        (fun as : List Nat => some as.length)).2.1 = false :=
  ⟨rfl, rfl, rfl⟩

/-- C2 (amended): in the multi-chunk path the file is marked successful
iff every chunk call succeeds within its 3 attempts and, when at least
one chunk result was collected, the synthesis call succeeds too; any
chunk exhausting its retries re-raises and marks the whole file failed,
discarding the successful chunks; synthesis runs iff all chunks
succeeded and there was at least one. -/
theorem processFile_success_iff {α β : Type} (chunks : List String) (findings : String)
    (o : Nat → Nat → Option α) (summ : List α → Option β) :
    ((processFileMultiChunk chunks findings o summ).1 = .success ↔
      ∃ as, (processChunks chunks findings o).1 = .ok as ∧
        (as = [] ∨ (summ as).isSome = true)) ∧
    ((processFileMultiChunk chunks findings o summ).2.1 = true ↔
      ∃ as, (processChunks chunks findings o).1 = .ok as ∧ as ≠ []) ∧
    (isOkE (processChunks chunks findings o).1 = true ↔
      ∀ k < chunks.length, (chunkAttempts o k 3 0).1.isSome = true) := by
  refine ⟨?_, ?_, by simpa using processChunksGo_ok_iff o findings chunks 0 [] []⟩ <;>
  · unfold processFileMultiChunk
    rcases h : processChunks chunks findings o with ⟨res, trace⟩
    rcases res with e | as
    · simp
    · by_cases hemp : as = []
      · simp [hemp]
      · rcases hs : summ as with _ | b <;>
          simp [hemp, hs, Option.isSome, List.isEmpty_iff]

/-- C8: in the processor's chunk loop, the static-analysis findings
argument is passed only with the first chunk's analyze calls; every
call for a chunk with index other than 0 receives the empty string. -/
theorem processor_findings_only_first_chunk {α β : Type} (chunks : List String)
    (findings : String) (o : Nat → Nat → Option α) (summ : List α → Option β) :
    ∀ rec ∈ (processFileMultiChunk chunks findings o summ).2.2,
      rec.findingsArg = if rec.chunkIdx = 0 then findings else "" := by
  have h := processChunksGo_findings o findings chunks 0 [] [] (by simp)
  intro rec hrec
  rw [processFileMultiChunk_trace] at hrec
  exact h rec hrec

/-- Witness for C8: with two chunks and findings "FINDINGS", the second
chunk's only call carries an empty findings argument. -/
theorem processor_findings_only_first_chunk_witness :
    (ChunkCallRec.mk "b" 1 0 "" ∈
      (processFileMultiChunk ["a", "b"] "FINDINGS" (fun _ _ => some 0)
        (fun _ : List Nat => (some 0 : Option Nat))).2.2) ∧
    (ChunkCallRec.mk "b" 1 0 "").findingsArg =
      (if (ChunkCallRec.mk "b" 1 0 "").chunkIdx = 0 then "FINDINGS" else "") :=
  ⟨by decide,
   processor_findings_only_first_chunk ["a", "b"] "FINDINGS" (fun _ _ => some 0)
     (fun _ : List Nat => (some 0 : Option Nat)) (ChunkCallRec.mk "b" 1 0 "") (by decide)⟩

/-! ## calculate_file_hash and its lru_cache

Embedding of core/utils.py calculate_file_hash: the SHA-256 hexdigest
of the file's bytes (read in 4096-byte chunks, which hashes exactly the
whole content), the sentinel "ERROR_HASH" when reading raises; the
function is decorated with functools.lru_cache(maxsize=128), modelled
as a recency-ordered association list.  The file system is an oracle
from path to optional byte content (none = unreadable). -/

def assocLookup {γ : Type} : List (String × γ) → String → Option γ
  | [], _ => none
  | (k, v) :: rest, key => if k = key then some v else assocLookup rest key

def removeKey {γ : Type} : List (String × γ) → String → List (String × γ)
  | [], _ => []
  | (k, v) :: rest, key =>
    if k = key then removeKey rest key else (k, v) :: removeKey rest key

/-- State of functools.lru_cache: memoized (path, digest) pairs, most
recently used first. -/
structure LruCache where
  entries : List (String × String)
  deriving Repr, DecidableEq

/-- The maxsize argument of the lru_cache decorator. -/
def lruMaxsize : Nat := 128

/-- The undecorated body of calculate_file_hash. -/
def calcHashRaw (fs : String → Option (List Nat)) (p : String) : String :=
  match fs p with
  | some bs => sha256Hex bs
  | none => "ERROR_HASH"

/-- calculate_file_hash as decorated with lru_cache(maxsize=128): a hit
returns the memoized digest and refreshes its recency; a miss computes
the digest of the current content and memoizes it, evicting the least
recently used entry beyond maxsize. -/
def calculate_file_hash (st : LruCache) (fs : String → Option (List Nat)) (p : String) :
    String × LruCache :=
  match assocLookup st.entries p with
  | some v => (v, ⟨(p, v) :: removeKey st.entries p⟩)
  | none =>
    let v := calcHashRaw fs p
    (v, ⟨((p, v) :: st.entries).take lruMaxsize⟩)

/-! ## Report paths and the cache-freshness check

Embedding of the path computations of processor.py _process_file
(lines 42-54) and ReportGenerator.save_report (lines 72-90). -/

/-- A cache entry as the processor reads it: dict .get('hash') and the
stored report_path field. -/
structure CacheEntry where
  hash : Option String
  report_path : String
  deriving Repr, DecidableEq

/-- os.path.basename on a POSIX path: everything after the last slash. -/
def basename (p : String) : String :=
  String.mk ((p.data.reverse.takeWhile fun c => c ≠ '/').reverse)

/-- os.path.join of two POSIX path components. -/
def pathJoin (a b : String) : String :=
  if b.data.head? = some '/' then b
  else if a.data = [] || a.data.getLast? = some '/' then a ++ b
  else a ++ "/" ++ b

/-- The report extension the cache check expects (processor.py line 46). -/
def reportExt (fmt : String) : String :=
  if fmt = "json" then ".json" else if fmt = "markdown" then ".md" else ".report"

/-- The expected report path the cache check tests for existence
(processor.py lines 46-48): recomputed from the current configuration,
not read from the cache entry. -/
def expectedReportPath (outputDir fmt filepath : String) : String :=
  pathJoin outputDir (basename filepath ++ reportExt fmt)

/-- The skip-as-unchanged condition of _process_file (lines 51-54):
entry present, stored hash equal to the current hash, and the expected
report path existing on disk. -/
def cacheCheckSkip (cache : List (String × CacheEntry)) (fsExists : String → Bool)
    (outputDir fmt filepath fileHash : String) : Bool :=
  match assocLookup cache filepath with
  | some e =>
    decide (e.hash = some fileHash) && fsExists (expectedReportPath outputDir fmt filepath)
  | none => false

/-- str.replace(old, new) replacing every non-overlapping occurrence
left to right; fuel ≥ length suffices for the nonempty patterns used
here (the empty pattern behaves as the identity, unlike Python). -/
def strReplaceGo (pat repl : List Char) : Nat → List Char → List Char
  | 0, l => l
  | _ + 1, [] => []
  | fuel + 1, c :: rest =>
    if pat ≠ [] ∧ pat.isPrefixOf (c :: rest) then
      repl ++ strReplaceGo pat repl fuel ((c :: rest).drop pat.length)
    else
      c :: strReplaceGo pat repl fuel rest

def strReplace (s pat repl : String) : String :=
  String.mk (strReplaceGo pat.data repl.data s.data.length s.data)

/-- ReportGenerator.save_report path computation: base name plus
".report" joined to the output dir, then the format-specific extension
substituted with str.replace over the whole path; unsupported formats
raise ValueError. -/
def save_report_path (outputDir fmt originalFilepath : String) : Except PyErr String :=
  let rp := pathJoin outputDir (basename originalFilepath ++ ".report")
  if fmt = "json" then .ok (strReplace rp ".report" ".json")
  else if fmt = "text" then .ok rp
  else if fmt = "markdown" then .ok (strReplace rp ".report" ".md")
  else .error .valueError

/-- C7: the sentinel digest is never a real digest: every hexdigest has
64 characters while "ERROR_HASH" has 10, an unreadable file always
yields the sentinel, and a readable file always yields the hexdigest of
its bytes — so a file whose hashing failed can never match a stored
real digest. -/
theorem errorHash_sentinel :
    (∀ bs : List Nat, sha256Hex bs ≠ "ERROR_HASH") ∧
    (∀ (fs : String → Option (List Nat)) (p : String),
      fs p = none → calcHashRaw fs p = "ERROR_HASH") ∧
    (∀ (fs : String → Option (List Nat)) (p : String) (bs : List Nat),
      fs p = some bs → calcHashRaw fs p = sha256Hex bs) := by
  refine ⟨?_, ?_, ?_⟩
  · intro bs h
    have h1 := sha256Hex_length bs
    rw [h] at h1
    exact absurd h1 (by decide)
  · intro fs p h
    simp [calcHashRaw, h]
  · intro fs p bs h
    simp [calcHashRaw, h]

/-- Witness for C7 at a one-file file system: the unreadable path gets
the sentinel and the readable path gets a real 64-character digest. -/
theorem errorHash_sentinel_witness :
    ((fun p : String => if p = "f.py" then some [97] else none) "g.py" = none) ∧
    calcHashRaw (fun p : String => if p = "f.py" then some [97] else none) "g.py" =
      "ERROR_HASH" ∧
    sha256Hex [97] ≠ "ERROR_HASH" :=
  ⟨by decide,
   errorHash_sentinel.2.1 (fun p => if p = "f.py" then some [97] else none) "g.py" (by decide),
   errorHash_sentinel.1 [97]⟩

/-- File-system oracle before the edit: f.py contains byte 97. -/
def fsOld : String → Option (List Nat) := fun p => if p = "f.py" then some [97] else none

/-- File-system oracle after the edit: f.py contains byte 98. -/
def fsNew : String → Option (List Nat) := fun p => if p = "f.py" then some [98] else none

/-- C3 counterexample: hash f.py once, change its content, hash again in
the same run: the second call returns the memoized digest of the old
content, not the digest of the new content — the lru_cache decorator
does cache the fingerprint. -/
theorem hash_memoized_counterexample :
    (calculate_file_hash (calculate_file_hash ⟨[]⟩ fsOld "f.py").2 fsNew "f.py").1 =
      sha256Hex [97] ∧
    sha256Hex [97] ≠ sha256Hex [98] ∧
    (calculate_file_hash (calculate_file_hash ⟨[]⟩ fsOld "f.py").2 fsNew "f.py").1 ≠
      calcHashRaw fsNew "f.py" := by
  exact ⟨rfl, by decide, by decide⟩

/-- C3 (amended): the digest is memoized per path for the lifetime of
the process: a memo hit returns the stored digest without consulting
the file system at all, and only a miss computes the digest of the
file's current bytes. -/
theorem hash_lru_behaviour (st : LruCache) (fs : String → Option (List Nat)) (p : String) :
    (∀ v, assocLookup st.entries p = some v → (calculate_file_hash st fs p).1 = v) ∧
    (assocLookup st.entries p = none →
      (calculate_file_hash st fs p).1 = calcHashRaw fs p) := by
  constructor
  · intro v h
    simp [calculate_file_hash, h]
  · intro h
    simp [calculate_file_hash, h]

/-- Witness for C3: a memoized digest "D" is returned on a hit even
though the file system holds different content. -/
theorem hash_lru_behaviour_witness :
    (assocLookup (LruCache.mk [("f.py", "D")]).entries "f.py" = some "D") ∧
    (calculate_file_hash (LruCache.mk [("f.py", "D")]) fsNew "f.py").1 = "D" :=
  ⟨by decide, (hash_lru_behaviour (LruCache.mk [("f.py", "D")]) fsNew "f.py").1 "D" (by decide)⟩

/-- C5 counterexample: an entry whose stored report_path exists on disk
and whose fingerprint matches is still not skipped, because the check
tests the recomputed expected path, not the entry's stored path. -/
theorem cache_skip_counterexample :
    (assocLookup [("src/f.py", CacheEntry.mk (some "H") "elsewhere/f.py.md")] "src/f.py" =
      some (CacheEntry.mk (some "H") "elsewhere/f.py.md")) ∧
    ((fun p : String => decide (p = "elsewhere/f.py.md"))
      (CacheEntry.mk (some "H") "elsewhere/f.py.md").report_path = true) ∧
    cacheCheckSkip [("src/f.py", CacheEntry.mk (some "H") "elsewhere/f.py.md")]
      (fun p => decide (p = "elsewhere/f.py.md")) "out" "markdown" "src/f.py" "H" = false := by
  exact ⟨by decide, by decide, by decide⟩

/-- C5 (amended): a file is skipped as unchanged iff a cache entry for
its path exists, the entry's stored fingerprint equals the current one,
and a report artifact exists at the expected path recomputed from the
current configuration — the entry's stored report_path is ignored.  In
particular a deleted artifact at the expected path defeats freshness
even when the fingerprint matches. -/
theorem cache_skip_iff (cache : List (String × CacheEntry)) (fsExists : String → Bool)
    (outputDir fmt filepath fileHash : String) :
    (cacheCheckSkip cache fsExists outputDir fmt filepath fileHash = true ↔
      ∃ e, assocLookup cache filepath = some e ∧ e.hash = some fileHash ∧
        fsExists (expectedReportPath outputDir fmt filepath) = true) ∧
    (fsExists (expectedReportPath outputDir fmt filepath) = false →
      cacheCheckSkip cache fsExists outputDir fmt filepath fileHash = false) := by
  constructor
  · cases h : assocLookup cache filepath with
    | none => simp [cacheCheckSkip, h]
    | some e => simp [cacheCheckSkip, h]
  · intro hfe
    cases h : assocLookup cache filepath with
    | none => simp [cacheCheckSkip, h]
    | some e => simp [cacheCheckSkip, h, hfe]

/-- Witness for C5: with the expected artifact absent the file is not
skipped even though the fingerprint matches. -/
theorem cache_skip_iff_witness :
    ((fun _ : String => false) (expectedReportPath "out" "markdown" "src/f.py") = false) ∧
    cacheCheckSkip [("src/f.py", CacheEntry.mk (some "H") "out/f.py.md")]
      (fun _ => false) "out" "markdown" "src/f.py" "H" = false :=
  ⟨rfl,
   (cache_skip_iff [("src/f.py", CacheEntry.mk (some "H") "out/f.py.md")]
     (fun _ => false) "out" "markdown" "src/f.py" "H").2 rfl⟩

/-- C10: the report path and the expected cache-check path depend on the
input file only through its base name, so two distinct files sharing a
base name collide on both. -/
theorem save_report_path_collision (outputDir fmt p1 p2 : String)
    (h : basename p1 = basename p2) :
    save_report_path outputDir fmt p1 = save_report_path outputDir fmt p2 ∧
    expectedReportPath outputDir fmt p1 = expectedReportPath outputDir fmt p2 := by
  unfold save_report_path expectedReportPath
  rw [h]
  exact ⟨rfl, rfl⟩

/-- Witness for C10: a/x.py and b/x.py are distinct files whose reports
land on the identical path out/x.py.md, which is also the single
expected path both files' cache checks test. -/
theorem save_report_path_collision_witness :
    basename "a/x.py" = basename "b/x.py" ∧
    "a/x.py" ≠ "b/x.py" ∧
    save_report_path "out" "markdown" "a/x.py" = save_report_path "out" "markdown" "b/x.py" ∧
    expectedReportPath "out" "markdown" "a/x.py" =
      expectedReportPath "out" "markdown" "b/x.py" ∧
    save_report_path "out" "markdown" "a/x.py" = .ok "out/x.py.md" :=
  ⟨by decide, by decide,
   (save_report_path_collision "out" "markdown" "a/x.py" "b/x.py" (by decide)).1,
   (save_report_path_collision "out" "markdown" "a/x.py" "b/x.py" (by decide)).2,
   rfl⟩

/-! ## JSON parsing and load_cache

A strict JSON parser sufficient for json.load on a cache document:
values, arrays, objects, strings with escapes, numbers kept as their
lexeme.  Deviations from CPython, none of which any input evaluated
here exercises: the NaN/Infinity extension is not accepted, and \u
escapes decode each code unit separately (surrogate pairs are not
combined). -/

/-- JSON values; number lexemes are kept as written. -/
inductive Json
  | null
  | bool (b : Bool)
  | num (raw : String)
  | str (s : String)
  | arr (xs : List Json)
  | obj (kvs : List (String × Json))

/-- The whitespace json.load skips between tokens. -/
def skipJsonWs : List Char → List Char
  | [] => []
  | c :: rest =>
    if c = ' ' || c = '\t' || c = '\n' || c = '\r' then skipJsonWs rest else c :: rest

/-- Hex digit value. -/
def hexVal (c : Char) : Option Nat :=
  if '0' ≤ c ∧ c ≤ '9' then some (c.toNat - 48)
  else if 'a' ≤ c ∧ c ≤ 'f' then some (c.toNat - 87)
  else if 'A' ≤ c ∧ c ≤ 'F' then some (c.toNat - 55)
  else none

/-- Four hex digits of a \u escape. -/
def parseHex4 : List Char → Option (Nat × List Char)
  | a :: b :: c :: d :: rest =>
    match hexVal a, hexVal b, hexVal c, hexVal d with
    | some x, some y, some z, some w => some (x * 4096 + y * 256 + z * 16 + w, rest)
    | _, _, _, _ => none
  | _ => none

/-- Body of a JSON string after the opening quote: content up to the
closing quote; unescaped control characters are invalid. -/
def parseJsonStringGo : Nat → List Char → Option (List Char × List Char)
  | 0, _ => none
  | _ + 1, [] => none
  | fuel + 1, c :: rest =>
    if c = '"' then some ([], rest)
    else if c = '\\' then
      match rest with
      | [] => none
      | e :: rest2 =>
        if e = 'u' then
          match parseHex4 rest2 with
          | some (n, rest3) =>
            (parseJsonStringGo fuel rest3).map fun pr => (Char.ofNat n :: pr.1, pr.2)
          | none => none
        else
          match
            (if e = '"' then some '"'
             else if e = '\\' then some '\\'
             else if e = '/' then some '/'
             else if e = 'b' then some '\x08'
             else if e = 'f' then some '\x0c'
             else if e = 'n' then some '\n'
             else if e = 'r' then some '\r'
             else if e = 't' then some '\t'
             else none) with
          | some ch => (parseJsonStringGo fuel rest2).map fun pr => (ch :: pr.1, pr.2)
          | none => none
    else if c.toNat < 32 then none
    else (parseJsonStringGo fuel rest).map fun pr => (c :: pr.1, pr.2)

/-- Maximal digit run. -/
def takeDigits : List Char → List Char × List Char
  | [] => ([], [])
  | c :: rest =>
    if c.isDigit then
      let pr := takeDigits rest
      (c :: pr.1, pr.2)
    else ([], c :: rest)

/-- The integer part of a JSON number: 0, or a nonzero digit followed
by digits. -/
def parseIntPart : List Char → Option (List Char × List Char)
  | [] => none
  | c :: rest =>
    if c = '0' then some (['0'], rest)
    else if c.isDigit then
      let pr := takeDigits rest
      some (c :: pr.1, pr.2)
    else none

/-- Optional fraction: a dot demands at least one digit. -/
def parseFrac : List Char → Option (List Char × List Char)
  | '.' :: r =>
    match takeDigits r with
    | ([], _) => none
    | (ds, rest) => some ('.' :: ds, rest)
  | l => some ([], l)

/-- Optional exponent: e/E, optional sign, at least one digit. -/
def parseExp : List Char → Option (List Char × List Char)
  | [] => some ([], [])
  | c :: r =>
    if c = 'e' || c = 'E' then
      match r with
      | [] => none
      | s :: r2 =>
        if s = '+' || s = '-' then
          match takeDigits r2 with
          | ([], _) => none
          | (ds, rest) => some (c :: s :: ds, rest)
        else
          match takeDigits r with
          | ([], _) => none
          | (ds, rest) => some (c :: ds, rest)
    else some ([], c :: r)

/-- A JSON number, returned as its lexeme. -/
def parseJsonNumber (l : List Char) : Option (Json × List Char) :=
  let pr :=
    match l with
    | '-' :: r => (['-'], r)
    | _ => (([] : List Char), l)
  match parseIntPart pr.2 with
  | none => none
  | some (ip, l2) =>
    match parseFrac l2 with
    | none => none
    | some (fp, l3) =>
      match parseExp l3 with
      | none => none
      | some (ep, l4) => some (.num (String.mk (pr.1 ++ ip ++ fp ++ ep)), l4)

mutual

/-- One JSON value, leading whitespace skipped. -/
def parseJsonValue : Nat → List Char → Option (Json × List Char)
  | 0, _ => none
  | fuel + 1, l =>
    match skipJsonWs l with
    | 'n' :: 'u' :: 'l' :: 'l' :: rest => some (.null, rest)
    | 't' :: 'r' :: 'u' :: 'e' :: rest => some (.bool true, rest)
    | 'f' :: 'a' :: 'l' :: 's' :: 'e' :: rest => some (.bool false, rest)
    | '"' :: rest =>
      (parseJsonStringGo (rest.length + 1) rest).map fun pr => (.str (String.mk pr.1), pr.2)
    | '[' :: rest =>
      match skipJsonWs rest with
      | ']' :: rest2 => some (.arr [], rest2)
      | l2 => (parseJsonItems fuel l2).map fun pr => (.arr pr.1, pr.2)
    | '{' :: rest =>
      match skipJsonWs rest with
      | '}' :: rest2 => some (.obj [], rest2)
      | l2 => (parseJsonMembers fuel l2).map fun pr => (.obj pr.1, pr.2)
    | l2 => parseJsonNumber l2

/-- Comma-separated array items up to the closing bracket. -/
def parseJsonItems : Nat → List Char → Option (List Json × List Char)
  | 0, _ => none
  | fuel + 1, l =>
    match parseJsonValue fuel l with
    | none => none
    | some (v, rest) =>
      match skipJsonWs rest with
      | ',' :: rest2 =>
        match parseJsonItems fuel rest2 with
        | none => none
        | some (vs, rest3) => some (v :: vs, rest3)
      | ']' :: rest2 => some ([v], rest2)
      | _ => none

/-- Comma-separated object members up to the closing brace. -/
def parseJsonMembers : Nat → List Char → Option (List (String × Json) × List Char)
  | 0, _ => none
  | fuel + 1, l =>
    match skipJsonWs l with
    | '"' :: rest =>
      match parseJsonStringGo (rest.length + 1) rest with
      | none => none
      | some (key, rest2) =>
        match skipJsonWs rest2 with
        | ':' :: rest3 =>
          match parseJsonValue fuel rest3 with
          | none => none
          | some (v, rest4) =>
            match skipJsonWs rest4 with
            | ',' :: rest5 =>
              match parseJsonMembers fuel rest5 with
              | none => none
              | some (kvs, rest6) => some ((String.mk key, v) :: kvs, rest6)
            | '}' :: rest5 => some ([(String.mk key, v)], rest5)
            | _ => none
        | _ => none
    | _ => none

end

/-- json.loads on a whole document: one value, then only trailing
whitespace. -/
def jsonParse (s : String) : Option Json :=
  match parseJsonValue (2 * s.data.length + 4) s.data with
  | some (v, rest) => if skipJsonWs rest = [] then some v else none
  | none => none

/-- core/utils.py load_cache over the state of the cache file: a missing
file yields the empty dict; an existing file is opened and read (I/O
errors propagate — only json.JSONDecodeError is caught), decoded as
utf-8 (a UnicodeDecodeError propagates), and parsed; a parse failure is
caught and yields the empty dict. -/
def load_cache : ReadResult → Except PyErr Json
  | .absent => .ok (.obj [])
  | .ioError => .error .osError
  | .bytes bs =>
    match decodeUtf8 bs with
    | none => .error .unicodeDecodeError
    | some cs =>
      match jsonParse (String.mk (translateNewlines cs)) with
      | some v => .ok v
      | none => .ok (.obj [])

/-- C6 counterexample: a cache file that exists but cannot be opened
raises (OSError is not caught — only JSONDecodeError is), rather than
yielding the empty mapping. -/
theorem load_cache_unreadable_counterexample :
    load_cache .ioError = .error .osError ∧
    load_cache .ioError ≠ .ok (.obj []) :=
  ⟨rfl, fun h => Except.noConfusion h⟩

/-- C6 (amended): an absent cache file and a cache file whose content
fails to parse as JSON both yield the empty mapping, and a well-formed
document is returned as parsed; but a file that cannot be opened or
read (I/O error) raises, as does content that is not valid UTF-8. -/
theorem load_cache_behaviour :
    load_cache .absent = .ok (.obj []) ∧
    (∀ (bs : List Nat) (cs : List Char), decodeUtf8 bs = some cs →
      jsonParse (String.mk (translateNewlines cs)) = none →
      load_cache (.bytes bs) = .ok (.obj [])) ∧
    (∀ (bs : List Nat) (cs : List Char) (v : Json), decodeUtf8 bs = some cs →
      jsonParse (String.mk (translateNewlines cs)) = some v →
      load_cache (.bytes bs) = .ok v) ∧
    (∀ bs : List Nat, decodeUtf8 bs = none →
      load_cache (.bytes bs) = .error .unicodeDecodeError) ∧
    load_cache .ioError = .error .osError := by
  refine ⟨rfl, ?_, ?_, ?_, rfl⟩
  · intro bs cs h1 h2
    simp [load_cache, h1, h2]
  · intro bs cs v h1 h2
    simp [load_cache, h1, h2]
  · intro bs h1
    simp [load_cache, h1]

/-- Witness for C6: the truncated document "{" (byte 123) parses as no
JSON value and load_cache yields the empty mapping. -/
theorem load_cache_behaviour_witness :
    decodeUtf8 [123] = some ['{'] ∧
    jsonParse (String.mk (translateNewlines ['{'])) = none ∧
    load_cache (.bytes [123]) = .ok (.obj []) :=
  ⟨rfl, rfl, load_cache_behaviour.2.1 [123] ['{'] rfl rfl⟩

/-- C9: for every byte content, read_file_content returns a string: the
utf-8 decode may fail, but the latin-1 fallback decodes every byte
sequence, so the terminal ValueError branch (all encodings exhausted)
is unreachable for a file that could be opened and read. -/
theorem read_file_content_total (bs : List Nat) :
    read_file_content (.bytes bs) =
      .ok (String.mk (translateNewlines ((decodeUtf8 bs).getD (decodeLatin1 bs)))) ∧
    ∃ s, read_file_content (.bytes bs) = .ok s ∧
      read_file_content (.bytes bs) ≠ .error .valueError := by
  have h : read_file_content (.bytes bs) =
      .ok (String.mk (translateNewlines ((decodeUtf8 bs).getD (decodeLatin1 bs)))) := by
    cases hu : decodeUtf8 bs with
    | some cs => simp [read_file_content, tryEncodings, decodeWith, hu]
    | none => simp [read_file_content, tryEncodings, decodeWith, hu]
  exact ⟨h, _, h, by rw [h]; exact fun hc => Except.noConfusion hc⟩

end CodeAnalyzer
